import Mathlib

/-!
Verification of the pi-inspector USB watch mechanism and tool dispatch.

The USB watch diff is embedded from the VS Code extension command
cmdUsbWatch in src/extensions/pi-inspector/src/extension.ts (lines 72-93):
the observed lsusb lines are deduplicated into a JS Set (insertion order,
exact string equality), diffed against the stored snapshot, the added and
removed lists are sorted, and the snapshot is replaced wholesale by the
just-observed set.  The MCP stdio server (inspector-raspi-mcp) is not part
of the sources; its response envelope, reset flag, alias resolution and
dispatcher are modelled from the specification where noted.
-/

namespace PiInspector

/-- One step of JS Set construction: append the element unless it is already
present.  Mirrors new Set(list) building membership by exact string
equality in insertion order (extension.ts line 78). -/
def setAdd (acc : List String) (x : String) : List String :=
  if x ∈ acc then acc else acc ++ [x]

/-- The element list of new Set(list): first occurrences, in insertion
order (extension.ts line 78, const now = new Set(list.map(String))). -/
def insertionOrderSet (l : List String) : List String :=
  l.foldl setAdd []

theorem mem_foldl_setAdd (l : List String) :
    ∀ (acc : List String) (x : String),
      x ∈ l.foldl setAdd acc ↔ x ∈ acc ∨ x ∈ l := by
  induction l with
  | nil => simp
  | cons y l ih =>
    intro acc x
    simp only [List.foldl_cons, ih, setAdd]
    by_cases h : y ∈ acc
    · simp only [if_pos h, List.mem_cons]
      constructor
      · rintro (hx | hx)
        · exact Or.inl hx
        · exact Or.inr (Or.inr hx)
      · rintro (hx | rfl | hx)
        · exact Or.inl hx
        · exact Or.inl h
        · exact Or.inr hx
    · simp only [if_neg h, List.mem_append, List.mem_singleton, List.mem_cons]
      tauto

theorem nodup_foldl_setAdd (l : List String) :
    ∀ acc : List String, acc.Nodup → (l.foldl setAdd acc).Nodup := by
  induction l with
  | nil => exact fun acc h => h
  | cons y l ih =>
    intro acc hacc
    simp only [List.foldl_cons, setAdd]
    by_cases h : y ∈ acc
    · rw [if_pos h]
      exact ih acc hacc
    · rw [if_neg h]
      refine ih (acc ++ [y]) ?_
      simp [List.nodup_append, hacc, h]

theorem mem_insertionOrderSet {x : String} {l : List String} :
    x ∈ insertionOrderSet l ↔ x ∈ l := by
  simp [insertionOrderSet, mem_foldl_setAdd]

theorem nodup_insertionOrderSet (l : List String) :
    (insertionOrderSet l).Nodup :=
  nodup_foldl_setAdd l [] List.nodup_nil

/-- Appending a line that already occurred leaves the deduplicated set
unchanged, including its order. -/
theorem insertionOrderSet_concat_mem {l : List String} {x : String}
    (h : x ∈ l) : insertionOrderSet (l ++ [x]) = insertionOrderSet l := by
  unfold insertionOrderSet
  rw [List.foldl_append]
  simp only [List.foldl_cons, List.foldl_nil, setAdd]
  rw [if_pos ((mem_foldl_setAdd l [] x).mpr (Or.inr h))]

theorem toFinset_insertionOrderSet (l : List String) :
    (insertionOrderSet l).toFinset = l.toFinset := by
  ext x
  simp [List.mem_toFinset, mem_insertionOrderSet]

theorem length_insertionOrderSet (l : List String) :
    (insertionOrderSet l).length = l.toFinset.card := by
  rw [← toFinset_insertionOrderSet l,
    List.toFinset_card_of_nodup (nodup_insertionOrderSet l)]

/-- JS Array.prototype.sort on device strings: lexicographic string order
(extension.ts lines 82-85). -/
def sortStrings (l : List String) : List String :=
  l.insertionSort (· ≤ ·)

theorem sorted_sortStrings (l : List String) :
    (sortStrings l).Sorted (· ≤ ·) :=
  List.sorted_insertionSort _ l

theorem perm_sortStrings (l : List String) : List.Perm (sortStrings l) l :=
  List.perm_insertionSort _ l

theorem mem_sortStrings {x : String} {l : List String} :
    x ∈ sortStrings l ↔ x ∈ l :=
  (perm_sortStrings l).mem_iff

theorem nodup_sortStrings {l : List String} (h : l.Nodup) :
    (sortStrings l).Nodup :=
  ((perm_sortStrings l).nodup_iff).mpr h

theorem sortStrings_eq_of_perm {a b : List String} (h : List.Perm a b) :
    sortStrings a = sortStrings b :=
  List.eq_of_perm_of_sorted
    ((perm_sortStrings a).trans (h.trans (perm_sortStrings b).symm))
    (sorted_sortStrings a) (sorted_sortStrings b)

theorem sortStrings_eq_of_nodup_mem {a b : List String}
    (ha : a.Nodup) (hb : b.Nodup) (h : ∀ x, x ∈ a ↔ x ∈ b) :
    sortStrings a = sortStrings b :=
  sortStrings_eq_of_perm ((List.perm_ext_iff_of_nodup ha hb).mpr h)

/-- The usb subsection of the backend JSON: lsusb is some list when
data.usb.lsusb is an array, none when the field is absent or not an
array (extension.ts line 77, the Array.isArray test). -/
structure UsbInfo where
  lsusb : Option (List String)
deriving DecidableEq

/-- The JSON body of GET /system-info: usb is none when the usb
subsection is absent (extension.ts line 77, the data.usb truthiness
test). -/
structure SystemInfo where
  usb : Option UsbInfo
deriving DecidableEq

/-- The extraction on extension.ts line 77: fetchJson yields null (none)
on any fetch or JSON failure, and the device list defaults to [] unless
data, data.usb and an array data.usb.lsusb are all present. -/
def extractLsusb : Option SystemInfo → List String
  | none => []
  | some data =>
    match data.usb with
    | none => []
    | some u => u.lsusb.getD []

/-- The diff step of cmdUsbWatch (extension.ts lines 76-87): dedup the
observed lines into a set, compute added and removed against the stored
snapshot (sorted), and return the new snapshot.  Result:
((added, removed, count), new snapshot), where count is now.size of the
summary on line 88. -/
def cmdUsbWatch (prevUsbSet : Option (List String))
    (data : Option SystemInfo) :
    (List String × List String × Nat) × List String :=
  let list := extractLsusb data
  let now := insertionOrderSet list
  match prevUsbSet with
  | some prev =>
      ((sortStrings (now.filter fun x => decide (x ∉ prev)),
        sortStrings (prev.filter fun x => decide (x ∉ now)),
        now.length), now)
  | none => ((sortStrings now, [], now.length), now)

/-- The fields of one usb-watch response. -/
structure UsbWatchResult where
  added : List String
  removed : List String
  count : Nat
  devices : List String
  changed : Bool
deriving DecidableEq

/-- Modelled from the spec: the MCP usb-watch tool (inspector-raspi-mcp
is not under src/).  Its diff core is the embedded cmdUsbWatch of the
extension; the spec adds a response envelope carrying the current set
(sorted), a changed flag that is true iff added or removed is non-empty,
and an optional reset flag that discards any prior snapshot before
diffing (spec sections 4.3 and 6). -/
def usbWatch (reset : Bool) (prevUsbSet : Option (List String))
    (data : Option SystemInfo) :
    UsbWatchResult × Option (List String) :=
  let prev := if reset then none else prevUsbSet
  let out := cmdUsbWatch prev data
  (⟨out.1.1, out.1.2.1, out.1.2.2, sortStrings out.2,
    !out.1.1.isEmpty || !out.1.2.1.isEmpty⟩, some out.2)

theorem usbWatch_added_some (p : List String) (data : Option SystemInfo) :
    (usbWatch false (some p) data).1.added =
      sortStrings ((insertionOrderSet (extractLsusb data)).filter
        fun x => decide (x ∉ p)) := rfl

theorem usbWatch_removed_some (p : List String) (data : Option SystemInfo) :
    (usbWatch false (some p) data).1.removed =
      sortStrings (p.filter
        fun x => decide (x ∉ insertionOrderSet (extractLsusb data))) := rfl

theorem usbWatch_added_none (data : Option SystemInfo) :
    (usbWatch false none data).1.added =
      sortStrings (insertionOrderSet (extractLsusb data)) := rfl

theorem usbWatch_removed_none (data : Option SystemInfo) :
    (usbWatch false none data).1.removed = [] := rfl

theorem usbWatch_changed_eq (reset : Bool) (st : Option (List String))
    (data : Option SystemInfo) :
    (usbWatch reset st data).1.changed =
      (!(usbWatch reset st data).1.added.isEmpty ||
       !(usbWatch reset st data).1.removed.isEmpty) := rfl

theorem usbWatch_snapshot (reset : Bool) (st : Option (List String))
    (data : Option SystemInfo) :
    (usbWatch reset st data).2 =
      some (insertionOrderSet (extractLsusb data)) := by
  cases reset <;> cases st <;> rfl

theorem usbWatch_count (reset : Bool) (st : Option (List String))
    (data : Option SystemInfo) :
    (usbWatch reset st data).1.count =
      (insertionOrderSet (extractLsusb data)).length := by
  cases reset <;> cases st <;> rfl

theorem usbWatch_devices (reset : Bool) (st : Option (List String))
    (data : Option SystemInfo) :
    (usbWatch reset st data).1.devices =
      sortStrings (insertionOrderSet (extractLsusb data)) := by
  cases reset <;> cases st <;> rfl

theorem changed_flag_iff (a b : List String) :
    (!a.isEmpty || !b.isEmpty) = true ↔ (a ≠ [] ∨ b ≠ []) := by
  cases a <;> cases b <;> simp

/-- Error kinds of the response envelope taxonomy (spec section 7). -/
inductive ErrorKind where
  | unknownTool
  | invalidArguments
  | backendUnreachable
  | timeout
  | upstreamError
  | missingDependency
  | internalError
deriving DecidableEq

/-- Request envelope: an opaque correlation id and a tool name
(spec section 3). -/
structure Request where
  id : String
  tool : String
deriving DecidableEq

/-- Response envelope: the echoed id, and either a result or an error
kind; a handler here is identified by the backend path it fetches. -/
structure Response where
  id : String
  result : Option String
  error : Option ErrorKind
deriving DecidableEq

/-- Single association-list traversal used for both the tool registry and
the alias index (first match wins, case-sensitive string equality). -/
def lookupTool : List (String × String) → String → Option String
  | [], _ => none
  | (n, v) :: rest, name => if n = name then some v else lookupTool rest name

/-- The LM tool registrations of the current extension revision
(extension.ts lines 184-187 and 193): canonical hyphenated tool name
paired with the backend path its handler fetches. -/
def registeredTools : List (String × String) :=
  [("pi-health", "/health"),
   ("pi-cpu-temp", "/cpu-temp"),
   ("pi-system-info", "/system-info"),
   ("pi-capabilities", "/capabilities"),
   ("pi-usb-list", "/system-info")]

/-- The LM tool registrations of the legacy extension revision
(extension.ts lines 324-327): dotted tool name paired with the backend
path its handler fetches. -/
def legacyTools : List (String × String) :=
  [("pi.health", "/health"),
   ("pi.cpuTemp", "/cpu-temp"),
   ("pi.systemInfo", "/system-info"),
   ("pi.capabilities", "/capabilities")]

/-- Modelled from the spec: the dispatcher alias index of the MCP server
(inspector-raspi-mcp is not under src/): legacy dotted names resolve to
the canonical hyphenated entry (spec section 4.2).  The dotted names are
those declared by the legacy revision (extension.ts lines 324-327) plus
pi.usbList (named at extension.ts line 207); the canonical names are
those of the current revision (lines 184-187 and 193). -/
def aliasIndex : List (String × String) :=
  [("pi.health", "pi-health"),
   ("pi.cpuTemp", "pi-cpu-temp"),
   ("pi.systemInfo", "pi-system-info"),
   ("pi.capabilities", "pi-capabilities"),
   ("pi.usbList", "pi-usb-list")]

/-- Modelled from the spec: alias normalization before registry lookup
(spec section 4.2); a name that is not a declared alias is used as is. -/
def resolveAlias (name : String) : String :=
  (lookupTool aliasIndex name).getD name

/-- Modelled from the spec: the MCP dispatcher (inspector-raspi-mcp is
not under src/): after alias resolution, a registry hit produces a
result response and a miss produces an unknown-tool error response, in
both cases echoing the request id (spec sections 4.2 and 8). -/
def dispatch (req : Request) : Response :=
  match lookupTool registeredTools (resolveAlias req.tool) with
  | some path => ⟨req.id, some path, none⟩
  | none => ⟨req.id, none, some ErrorKind.unknownTool⟩

/-- Claim C1: a watch call on a seeded snapshot P with observed set C
returns added = C minus P, removed = P minus C, the current set, and a
changed flag true iff added or removed is non-empty, and replaces the
snapshot with C; in particular P = Dev1,Dev2 and C = Dev2,Dev3 yields
added = [Dev3], removed = [Dev1], changed = true. -/
theorem usb_watch_subsequent_diff :
    (∀ (prev : List String) (data : Option SystemInfo),
      (∀ x, x ∈ (usbWatch false (some prev) data).1.added ↔
        (x ∈ extractLsusb data ∧ x ∉ prev)) ∧
      (∀ x, x ∈ (usbWatch false (some prev) data).1.removed ↔
        (x ∈ prev ∧ x ∉ extractLsusb data)) ∧
      (∀ x, x ∈ (usbWatch false (some prev) data).1.devices ↔
        x ∈ extractLsusb data) ∧
      ((usbWatch false (some prev) data).1.changed = true ↔
        ((usbWatch false (some prev) data).1.added ≠ [] ∨
         (usbWatch false (some prev) data).1.removed ≠ [])) ∧
      (∃ s, (usbWatch false (some prev) data).2 = some s ∧
        ∀ x, x ∈ s ↔ x ∈ extractLsusb data)) ∧
    (usbWatch false (some ["Dev1", "Dev2"])
      (some ⟨some ⟨some ["Dev2", "Dev3"]⟩⟩)).1.added = ["Dev3"] ∧
    (usbWatch false (some ["Dev1", "Dev2"])
      (some ⟨some ⟨some ["Dev2", "Dev3"]⟩⟩)).1.removed = ["Dev1"] ∧
    (usbWatch false (some ["Dev1", "Dev2"])
      (some ⟨some ⟨some ["Dev2", "Dev3"]⟩⟩)).1.changed = true := by
  refine ⟨?_, ?_, ?_, ?_⟩
  · intro prev data
    refine ⟨?_, ?_, ?_, ?_, insertionOrderSet (extractLsusb data),
      usbWatch_snapshot false (some prev) data, fun x => mem_insertionOrderSet⟩
    · intro x
      rw [usbWatch_added_some]
      simp [mem_sortStrings, List.mem_filter, mem_insertionOrderSet]
    · intro x
      rw [usbWatch_removed_some]
      simp [mem_sortStrings, List.mem_filter, mem_insertionOrderSet]
    · intro x
      rw [usbWatch_devices]
      simp [mem_sortStrings, mem_insertionOrderSet]
    · rw [usbWatch_changed_eq]
      exact changed_flag_iff _ _
  · decide
  · decide
  · decide

/-- Claim C2: the first watch call of a process (no prior snapshot, no
reset) stores the observed set C as the snapshot and returns added = the
full set C and removed = empty. -/
theorem usb_watch_first_seed (data : Option SystemInfo) :
    (∀ x, x ∈ (usbWatch false none data).1.added ↔ x ∈ extractLsusb data) ∧
    (usbWatch false none data).1.removed = [] ∧
    ∃ s, (usbWatch false none data).2 = some s ∧
      ∀ x, x ∈ s ↔ x ∈ extractLsusb data := by
  refine ⟨?_, rfl, insertionOrderSet (extractLsusb data),
    usbWatch_snapshot false none data, fun x => mem_insertionOrderSet⟩
  intro x
  rw [usbWatch_added_none]
  simp [mem_sortStrings, mem_insertionOrderSet]

/-- Claim C4: a watch call with reset = true discards the prior snapshot
and behaves exactly as a first call, from any prior state: removed is
empty, added is the full observed set, and the snapshot is re-seeded
with that set. -/
theorem usb_watch_reset_first_call (st : Option (List String))
    (data : Option SystemInfo) :
    usbWatch true st data = usbWatch false none data ∧
    (usbWatch true st data).1.removed = [] ∧
    (∀ x, x ∈ (usbWatch true st data).1.added ↔ x ∈ extractLsusb data) ∧
    ∃ s, (usbWatch true st data).2 = some s ∧
      ∀ x, x ∈ s ↔ x ∈ extractLsusb data := by
  refine ⟨rfl, rfl, ?_, insertionOrderSet (extractLsusb data),
    usbWatch_snapshot true st data, fun x => mem_insertionOrderSet⟩
  intro x
  have hadd : (usbWatch true st data).1.added =
      sortStrings (insertionOrderSet (extractLsusb data)) := rfl
  rw [hadd]
  simp [mem_sortStrings, mem_insertionOrderSet]

/-- Claim C6: every watch call, with or without reset and from any state,
leaves a present snapshot equal to the just-observed set; the state never
returns to uninitialized. -/
theorem usb_watch_always_seeded (reset : Bool) (st : Option (List String))
    (data : Option SystemInfo) :
    (usbWatch reset st data).2 =
      some (insertionOrderSet (extractLsusb data)) ∧
    (usbWatch reset st data).2 ≠ none ∧
    (∀ x, x ∈ insertionOrderSet (extractLsusb data) ↔
      x ∈ extractLsusb data) := by
  refine ⟨usbWatch_snapshot reset st data, ?_, fun x => mem_insertionOrderSet⟩
  rw [usbWatch_snapshot]
  simp

/-- Claim C3: calling watch twice in immediate succession while the
underlying device set does not change yields added = [], removed = [],
changed = false on the second call, and leaves the snapshot
extensionally equal to the observed set. -/
theorem usb_watch_idempotent (st : Option (List String))
    (d₁ d₂ : Option SystemInfo)
    (h : ∀ x, x ∈ extractLsusb d₂ ↔ x ∈ extractLsusb d₁) :
    (usbWatch false (usbWatch false st d₁).2 d₂).1.added = [] ∧
    (usbWatch false (usbWatch false st d₁).2 d₂).1.removed = [] ∧
    (usbWatch false (usbWatch false st d₁).2 d₂).1.changed = false ∧
    ∃ s, (usbWatch false (usbWatch false st d₁).2 d₂).2 = some s ∧
      ∀ x, x ∈ s ↔ x ∈ extractLsusb d₂ := by
  rw [usbWatch_snapshot false st d₁]
  have hadded :
      (usbWatch false (some (insertionOrderSet (extractLsusb d₁))) d₂).1.added
        = [] := by
    rw [usbWatch_added_some]
    have hf : (insertionOrderSet (extractLsusb d₂)).filter
        (fun x => decide (x ∉ insertionOrderSet (extractLsusb d₁))) = [] := by
      rw [List.filter_eq_nil_iff]
      intro a ha
      have ham : a ∈ insertionOrderSet (extractLsusb d₁) :=
        mem_insertionOrderSet.mpr ((h a).mp (mem_insertionOrderSet.mp ha))
      simp [ham]
    rw [hf]
    rfl
  have hremoved :
      (usbWatch false (some (insertionOrderSet (extractLsusb d₁))) d₂).1.removed
        = [] := by
    rw [usbWatch_removed_some]
    have hf : (insertionOrderSet (extractLsusb d₁)).filter
        (fun x => decide (x ∉ insertionOrderSet (extractLsusb d₂))) = [] := by
      rw [List.filter_eq_nil_iff]
      intro a ha
      have ham : a ∈ insertionOrderSet (extractLsusb d₂) :=
        mem_insertionOrderSet.mpr ((h a).mpr (mem_insertionOrderSet.mp ha))
      simp [ham]
    rw [hf]
    rfl
  refine ⟨hadded, hremoved, ?_, insertionOrderSet (extractLsusb d₂),
    usbWatch_snapshot false _ d₂, fun x => mem_insertionOrderSet⟩
  rw [usbWatch_changed_eq, hadded, hremoved]
  rfl

theorem usb_watch_idempotent_witness :
    (∀ x, x ∈ extractLsusb (some ⟨some ⟨some ["DevA"]⟩⟩) ↔
      x ∈ extractLsusb (some ⟨some ⟨some ["DevA"]⟩⟩)) ∧
    (usbWatch false
      (usbWatch false (some ["DevB"]) (some ⟨some ⟨some ["DevA"]⟩⟩)).2
      (some ⟨some ⟨some ["DevA"]⟩⟩)).1.added = [] :=
  ⟨fun _ => Iff.rfl,
   (usb_watch_idempotent (some ["DevB"]) (some ⟨some ⟨some ["DevA"]⟩⟩)
     (some ⟨some ⟨some ["DevA"]⟩⟩) (fun _ => Iff.rfl)).1⟩

/-- Claim C5: the returned added, removed and devices lists are sorted,
and the result fields depend on the observed device list only through
its set of exact-string-equal members: two observations with the same
members give the same added, removed, changed and count. -/
theorem usb_watch_sorted_order_independent (st : Option (List String))
    (d d₂ : Option SystemInfo)
    (h : ∀ x, x ∈ extractLsusb d ↔ x ∈ extractLsusb d₂) :
    (usbWatch false st d).1.added.Sorted (· ≤ ·) ∧
    (usbWatch false st d).1.removed.Sorted (· ≤ ·) ∧
    (usbWatch false st d).1.devices.Sorted (· ≤ ·) ∧
    (usbWatch false st d).1.added = (usbWatch false st d₂).1.added ∧
    (usbWatch false st d).1.removed = (usbWatch false st d₂).1.removed ∧
    (usbWatch false st d).1.changed = (usbWatch false st d₂).1.changed ∧
    (usbWatch false st d).1.count = (usbWatch false st d₂).1.count := by
  have hperm : List.Perm (insertionOrderSet (extractLsusb d))
      (insertionOrderSet (extractLsusb d₂)) :=
    (List.perm_ext_iff_of_nodup (nodup_insertionOrderSet _)
      (nodup_insertionOrderSet _)).mpr
      (fun x => by rw [mem_insertionOrderSet, mem_insertionOrderSet]; exact h x)
  have hadded : (usbWatch false st d).1.added =
      (usbWatch false st d₂).1.added := by
    cases st with
    | none =>
      rw [usbWatch_added_none, usbWatch_added_none]
      exact sortStrings_eq_of_perm hperm
    | some p =>
      rw [usbWatch_added_some, usbWatch_added_some]
      exact sortStrings_eq_of_perm (hperm.filter _)
  have hremoved : (usbWatch false st d).1.removed =
      (usbWatch false st d₂).1.removed := by
    cases st with
    | none => rw [usbWatch_removed_none, usbWatch_removed_none]
    | some p =>
      rw [usbWatch_removed_some, usbWatch_removed_some]
      congr 1
      refine List.filter_congr ?_
      intro x _
      refine decide_eq_decide.mpr (not_congr ?_)
      rw [mem_insertionOrderSet, mem_insertionOrderSet]
      exact h x
  refine ⟨?_, ?_, ?_, hadded, hremoved, ?_, ?_⟩
  · cases st with
    | none => rw [usbWatch_added_none]; exact sorted_sortStrings _
    | some p => rw [usbWatch_added_some]; exact sorted_sortStrings _
  · cases st with
    | none => rw [usbWatch_removed_none]; exact List.sorted_nil
    | some p => rw [usbWatch_removed_some]; exact sorted_sortStrings _
  · rw [usbWatch_devices]; exact sorted_sortStrings _
  · rw [usbWatch_changed_eq, usbWatch_changed_eq, hadded, hremoved]
  · rw [usbWatch_count, usbWatch_count]
    exact hperm.length_eq

theorem usb_watch_sorted_order_independent_witness :
    (∀ x, x ∈ extractLsusb (some ⟨some ⟨some ["DevX", "DevY"]⟩⟩) ↔
      x ∈ extractLsusb (some ⟨some ⟨some ["DevY", "DevX"]⟩⟩)) ∧
    (usbWatch false (some ["DevC"])
      (some ⟨some ⟨some ["DevX", "DevY"]⟩⟩)).1.added =
    (usbWatch false (some ["DevC"])
      (some ⟨some ⟨some ["DevY", "DevX"]⟩⟩)).1.added := by
  have hmem : ∀ x, x ∈ extractLsusb (some ⟨some ⟨some ["DevX", "DevY"]⟩⟩) ↔
      x ∈ extractLsusb (some ⟨some ⟨some ["DevY", "DevX"]⟩⟩) := by
    intro x
    show x ∈ ["DevX", "DevY"] ↔ x ∈ ["DevY", "DevX"]
    simp only [List.mem_cons, List.not_mem_nil, or_false]
    exact or_comm
  exact ⟨hmem,
    (usb_watch_sorted_order_independent (some ["DevC"])
      (some ⟨some ⟨some ["DevX", "DevY"]⟩⟩)
      (some ⟨some ⟨some ["DevY", "DevX"]⟩⟩) hmem).2.2.2.1⟩

/-- Claim C9: when the backend fetch fails (null data) or the body lacks
a usb.lsusb array, the handler treats the observed set as empty: a
seeded call reports added = [] and removed = every device of the
previous snapshot, and the snapshot becomes the empty set. -/
theorem usb_watch_backend_failure (p : List String)
    (data : Option SystemInfo) (h : extractLsusb data = []) :
    (usbWatch false (some p) data).1.added = [] ∧
    (∀ x, x ∈ (usbWatch false (some p) data).1.removed ↔ x ∈ p) ∧
    (usbWatch false (some p) data).2 = some [] ∧
    extractLsusb none = [] ∧
    extractLsusb (some ⟨none⟩) = [] ∧
    extractLsusb (some ⟨some ⟨none⟩⟩) = [] := by
  have hnow : insertionOrderSet (extractLsusb data) = [] := by rw [h]; rfl
  refine ⟨?_, ?_, ?_, rfl, rfl, rfl⟩
  · rw [usbWatch_added_some, hnow]
    rfl
  · intro x
    rw [usbWatch_removed_some, hnow]
    simp [mem_sortStrings, List.mem_filter]
  · rw [usbWatch_snapshot, hnow]

theorem usb_watch_backend_failure_witness :
    extractLsusb none = [] ∧
    (usbWatch false (some ["DevOld"]) none).1.added = [] :=
  ⟨rfl, (usb_watch_backend_failure ["DevOld"] none rfl).1⟩

/-- Claim C10: the observed list is deduplicated before diffing: added
and removed never contain duplicates, the reported count is the number
of distinct device strings, and appending a duplicate line to the
observed list changes nothing in the result or the stored snapshot. -/
theorem usb_watch_dedup (st : Option (List String))
    (data : Option SystemInfo) (x : String) (l : List String)
    (hst : ∀ p, st = some p → p.Nodup) (hx : x ∈ l) :
    (usbWatch false st data).1.added.Nodup ∧
    (usbWatch false st data).1.removed.Nodup ∧
    (usbWatch false st data).1.count = (extractLsusb data).toFinset.card ∧
    usbWatch false st (some ⟨some ⟨some (l ++ [x])⟩⟩) =
      usbWatch false st (some ⟨some ⟨some l⟩⟩) := by
  refine ⟨?_, ?_, ?_, ?_⟩
  · cases st with
    | none =>
      rw [usbWatch_added_none]
      exact nodup_sortStrings (nodup_insertionOrderSet _)
    | some p =>
      rw [usbWatch_added_some]
      exact nodup_sortStrings ((nodup_insertionOrderSet _).filter _)
  · cases st with
    | none =>
      rw [usbWatch_removed_none]
      exact List.nodup_nil
    | some p =>
      rw [usbWatch_removed_some]
      exact nodup_sortStrings ((hst p rfl).filter _)
  · rw [usbWatch_count]
    exact length_insertionOrderSet _
  · have hio : insertionOrderSet (l ++ [x]) = insertionOrderSet l :=
      insertionOrderSet_concat_mem hx
    have hcmd : cmdUsbWatch st (some ⟨some ⟨some (l ++ [x])⟩⟩) =
        cmdUsbWatch st (some ⟨some ⟨some l⟩⟩) := by
      simp only [cmdUsbWatch]
      rw [show extractLsusb (some ⟨some ⟨some (l ++ [x])⟩⟩) = l ++ [x] from rfl,
        show extractLsusb (some ⟨some ⟨some l⟩⟩) = l from rfl, hio]
    simp only [usbWatch, Bool.false_eq_true, if_false, hcmd]

theorem usb_watch_dedup_witness :
    ("DevU" ∈ ["DevU", "DevV"]) ∧
    usbWatch false (some ["DevW"])
      (some ⟨some ⟨some (["DevU", "DevV"] ++ ["DevU"])⟩⟩) =
      usbWatch false (some ["DevW"]) (some ⟨some ⟨some ["DevU", "DevV"]⟩⟩) :=
  ⟨by decide,
   (usb_watch_dedup (some ["DevW"]) none "DevU" ["DevU", "DevV"]
     (fun p hp => by cases hp; decide) (by decide)).2.2.2⟩

/-- Claim C7: every canonical hyphenated tool name and each of its
declared legacy dotted alias names resolve through dispatch to the same
canonical handler, identified by the backend path it fetches. -/
theorem alias_dispatch_same_handler (a c : String) (h : (a, c) ∈ aliasIndex) :
    (∀ i, dispatch ⟨i, a⟩ = dispatch ⟨i, c⟩) ∧
    resolveAlias a = c ∧
    ∃ path, lookupTool registeredTools c = some path ∧
      (lookupTool legacyTools a = none ∨
       lookupTool legacyTools a = some path) := by
  simp only [aliasIndex, List.mem_cons, List.not_mem_nil, or_false,
    Prod.mk.injEq] at h
  rcases h with ⟨rfl, rfl⟩ | ⟨rfl, rfl⟩ | ⟨rfl, rfl⟩ | ⟨rfl, rfl⟩ | ⟨rfl, rfl⟩
  · exact ⟨fun i => rfl, rfl, "/health", rfl, Or.inr rfl⟩
  · exact ⟨fun i => rfl, rfl, "/cpu-temp", rfl, Or.inr rfl⟩
  · exact ⟨fun i => rfl, rfl, "/system-info", rfl, Or.inr rfl⟩
  · exact ⟨fun i => rfl, rfl, "/capabilities", rfl, Or.inr rfl⟩
  · exact ⟨fun i => rfl, rfl, "/system-info", rfl, Or.inl rfl⟩

theorem alias_dispatch_same_handler_witness :
    (("pi.health", "pi-health") ∈ aliasIndex) ∧
    dispatch ⟨"7", "pi.health"⟩ = dispatch ⟨"7", "pi-health"⟩ :=
  ⟨by decide,
   (alias_dispatch_same_handler "pi.health" "pi-health" (by decide)).1 "7"⟩

/-- Claim C8: a well-formed request whose tool name, after alias
resolution, matches no registered tool gets exactly the response with
its own id, no result, and an unknown-tool error; dispatch is a total
function, so it never crashes. -/
theorem dispatch_unknown_tool (req : Request)
    (h : lookupTool registeredTools (resolveAlias req.tool) = none) :
    dispatch req = ⟨req.id, none, some ErrorKind.unknownTool⟩ ∧
    (dispatch req).id = req.id ∧
    (dispatch req).result = none := by
  simp [dispatch, h]

theorem dispatch_unknown_tool_witness :
    lookupTool registeredTools (resolveAlias "pi-frobnicate") = none ∧
    dispatch ⟨"42", "pi-frobnicate"⟩ =
      ⟨"42", none, some ErrorKind.unknownTool⟩ :=
  ⟨by decide, (dispatch_unknown_tool ⟨"42", "pi-frobnicate"⟩ (by decide)).1⟩

end PiInspector
